import Mathlib

/-!
Verification development for the `pragma` micro-batch CSV loader
(`src/Stats.py`, `src/Pipeline.py`, `src/main.py`).

Numeric model: the Python code works with IEEE double values produced by
polars/numpy.  The values that actually flow through the pipeline are finite
decimals, the two sentinels `float('inf')` / `float('-inf')` used by the
accumulator, and `NaN` (a polars `null` price exported to numpy becomes NaN).
We embed them as an inductive type `F` with exact rational finite values and
explicit `nan`, `inf`, `ninf` constructors; arithmetic and comparisons follow
IEEE-754 semantics (NaN is absorbing for `+`, incomparable for `<`), which is
exact for the decimal literals appearing here.
-/

/-- IEEE-double value as it matters to this pipeline: NaN, the two
infinities, or a finite value (modelled exactly by a rational). -/
inductive F where
  | nan : F
  | inf : F
  | ninf : F
  | fin : ℚ → F
deriving DecidableEq

/-- IEEE `<` on `F`: any comparison involving NaN is false;
`-inf < fin q < +inf`; finite values compare as rationals. -/
def F.lt : F → F → Bool
  | .nan, _ => false
  | _, .nan => false
  | .inf, _ => false
  | .ninf, .ninf => false
  | .ninf, _ => true
  | .fin _, .ninf => false
  | .fin p, .fin q => decide (p < q)
  | .fin _, .inf => true

/-- IEEE `+` on `F`: NaN absorbing, `inf + (-inf) = NaN`, infinities
absorb finite values.  Finite values add as exact rationals, which
idealizes the source's float64 addition: real float64 rounds each result
to 53-bit precision and is therefore not associative, so this model must
not be used to equate sums the program computes with different groupings.
The theorems below rely on exact finite addition only for
rounding-insensitive facts (NaN/infinity propagation, and that adding a
non-negative value never decreases a sum). -/
def F.add : F → F → F
  | .nan, _ => .nan
  | .inf, .nan => .nan
  | .inf, .inf => .inf
  | .inf, .ninf => .nan
  | .inf, .fin _ => .inf
  | .ninf, .nan => .nan
  | .ninf, .inf => .nan
  | .ninf, .ninf => .ninf
  | .ninf, .fin _ => .ninf
  | .fin _, .nan => .nan
  | .fin _, .inf => .inf
  | .fin _, .ninf => .ninf
  | .fin p, .fin q => .fin (p + q)

/-- Is this value NaN? -/
def F.isNan : F → Bool
  | .nan => true
  | _ => false

/-- Python's builtin `min(a, b)`: keeps `a` unless `b < a`.  With a NaN
second argument the comparison is false, so `a` is kept; with a NaN first
argument every comparison is false, so NaN is kept. -/
def pymin (a b : F) : F := if F.lt b a then b else a

/-- Python's builtin `max(a, b)`: keeps `a` unless `a < b`. -/
def pymax (a b : F) : F := if F.lt a b then b else a

/-- numpy's pairwise `np.minimum`: propagates NaN (unlike Python `min`). -/
def npfmin (a b : F) : F :=
  if a.isNan || b.isNan then F.nan else pymin a b

/-- numpy's pairwise `np.maximum`: propagates NaN. -/
def npfmax (a b : F) : F :=
  if a.isNan || b.isNan then F.nan else pymax a b

/-- `ndarray.sum()`: reduction by IEEE `+` starting from 0.0, modelled as
a left fold.  numpy actually performs pairwise float64 summation, rounding
at every step, so its grouping matters in the real program; this fold is
exact, and no theorem below depends on how a finite sum is grouped. -/
def npSum (l : List F) : F := l.foldl F.add (F.fin 0)

/-- `ndarray.min()`: NaN-propagating minimum of a non-empty array.
numpy raises on an empty array; that case is unreachable here because
`Stats.update_from_batch` returns early on an empty series, so we give it
an arbitrary value (NaN). -/
def npMin : List F → F
  | [] => F.nan
  | x :: xs => xs.foldl npfmin x

/-- `ndarray.max()`: NaN-propagating maximum of a non-empty array. -/
def npMax : List F → F
  | [] => F.nan
  | x :: xs => xs.foldl npfmax x

/-- The `Stats` dataclass of `src/Stats.py`: running count, sum and the
`float('inf')` / `float('-inf')` sentinels for min/max. -/
structure Stats where
  COUNT : Nat := 0
  SUM : F := F.fin 0
  MIN_VALUE : F := F.inf
  MAX_VALUE : F := F.ninf
deriving DecidableEq

/-- The dataclass defaults: `Stats()`. -/
def statsInit : Stats := {}

/-- `Stats.update_from_batch`: early return on an empty series, otherwise
`COUNT += len`, `SUM += values.sum()`, `MIN_VALUE = min(MIN_VALUE,
values.min())`, `MAX_VALUE = max(MAX_VALUE, values.max())`. -/
def updateFromBatch (s : Stats) (prices : List F) : Stats :=
  if prices.length = 0 then s
  else
    { COUNT := s.COUNT + prices.length
      SUM := F.add s.SUM (npSum prices)
      MIN_VALUE := pymin s.MIN_VALUE (npMin prices)
      MAX_VALUE := pymax s.MAX_VALUE (npMax prices) }

/-- `Stats._mean`: `SUM / COUNT` when `COUNT > 0`, else `0.0`.  Division of
an IEEE double by a positive integer. -/
def fdivNat (a : F) (n : Nat) : F :=
  match a with
  | .nan => .nan
  | .inf => .inf
  | .ninf => .ninf
  | .fin q => .fin (q / n)

/-- `Stats._mean` property. -/
def statsMean (s : Stats) : F :=
  if s.COUNT > 0 then fdivNat s.SUM s.COUNT else F.fin 0

/-- Shape of `Stats.get_current_stats()` and of
`Pipeline.verify_results_from_db()`: the dict
`{count, mean, min, max}`. -/
structure Snapshot where
  count : Nat
  mean : F
  min : F
  max : F
deriving DecidableEq

/-- `Stats.get_current_stats`: pure read; min/max fall back to `0.0`
exactly when they still equal their `float('inf')` / `float('-inf')`
sentinel. -/
def getCurrentStats (s : Stats) : Snapshot :=
  { count := s.COUNT
    mean := statsMean s
    min := if s.MIN_VALUE ≠ F.inf then s.MIN_VALUE else F.fin 0
    max := if s.MAX_VALUE ≠ F.ninf then s.MAX_VALUE else F.fin 0 }

/-! ## Pipeline embedding (`src/Pipeline.py`) -/

/-- One CSV input row as polars presents it to the pipeline: the raw date
string, the price column value (`none` models a polars null), and the
user-id string. -/
structure Row where
  date : String
  price : Option F
  user : String
deriving DecidableEq

/-- A calendar date `(month, day, year)` as produced by
`datetime.strptime(s, "%m/%d/%Y")`. -/
structure MDY where
  month : Nat
  day : Nat
  year : Nat
deriving DecidableEq

/-- Days per month used by `datetime`'s validity check. -/
def daysInMonth (year month : Nat) : Nat :=
  if month = 2 then
    if year % 4 = 0 && (year % 100 ≠ 0 || year % 400 = 0) then 29 else 28
  else if month = 4 || month = 6 || month = 9 || month = 11 then 30
  else 31

/-- Split a character list at every `'/'` (the behaviour of
`s.split("/")` on the date field). -/
def splitOnSlash (cs : List Char) : List (List Char) :=
  match cs with
  | [] => [[]]
  | c :: rest =>
    if c = '/' then [] :: splitOnSlash rest
    else
      match splitOnSlash rest with
      | [] => [[c]]
      | g :: gs => (c :: g) :: gs

/-- Parse a non-empty all-digit character group as a decimal number. -/
def digitsToNat (cs : List Char) : Option Nat :=
  if cs ≠ [] ∧ cs.all (fun c => c.isDigit) then
    some (cs.foldl (fun n c => 10 * n + (c.toNat - 48)) 0)
  else none

/-- Model of `datetime.strptime(s, "%m/%d/%Y")`: three `/`-separated
decimal fields, month in 1..12, day valid for the month; returns `none`
where the library raises `ValueError`. -/
def strptimeMDY (s : String) : Option MDY :=
  match splitOnSlash s.data with
  | [ms, ds, ys] =>
    match digitsToNat ms, digitsToNat ds, digitsToNat ys with
    | some m, some d, some y =>
      if 1 ≤ m ∧ m ≤ 12 ∧ 1 ≤ d ∧ d ≤ daysInMonth y m then some ⟨m, d, y⟩
      else none
    | _, _, _ => none
  | _ => none

/-- A record as handed to the `transactions` insert:
`(timestamp, price, user_id, file_source)`. -/
structure Rec where
  timestamp : MDY
  price : F
  user : String
  fileSource : String
deriving DecidableEq

/-- `chunk.with_columns(pl.col("price").fill_null(0))` applied to one row:
a null price becomes `0.0`.  Note this is the *local* filled copy inside
`_prepare_records`; the caller's chunk is unchanged. -/
def fillNullZero (r : Row) : Row :=
  { r with price := some (r.price.getD (F.fin 0)) }

/-- The record-building loop of `Pipeline._prepare_records`: one insert
tuple per row, parsing the date with `datetime.strptime`; the first
malformed date raises (here: `Except.error`) and no further rows are
built.  `float(row[1])` cannot fail because the null-fill already ran. -/
def buildRecords (rows : List Row) (filename : String) : Except String (List Rec) :=
  match rows with
  | [] => .ok []
  | r :: rest =>
    match strptimeMDY r.date with
    | none => .error "strptime: ValueError"
    | some d =>
      match buildRecords rest filename with
      | .error e => .error e
      | .ok rs => .ok ({ timestamp := d, price := r.price.getD (F.fin 0),
                         user := r.user, fileSource := filename } :: rs)

/-- `Pipeline._prepare_records`: fill nulls in the price column (on the
local copy of the chunk only), then run the record-building loop. -/
def prepareRecords (chunk : List Row) (filename : String) : Except String (List Rec) :=
  buildRecords (chunk.map fillNullZero) filename

/-- `chunk.get_column('price').cast(pl.Float64).to_numpy()`: polars exports
a null in a float column as NaN. -/
def chunkPricesNumpy (chunk : List Row) : List F :=
  chunk.map (fun r => r.price.getD F.nan)

/-- The store connection as the pipeline sees it: rows already committed
and rows inserted in the open transaction.  `execute_batch` / single
`execute` append to `pending`; `commit` moves `pending` to `committed`;
`rollback` drops `pending`. -/
structure PipeState where
  committed : List Rec
  pending : List Rec
  stats : Stats
deriving DecidableEq

/-- `Pipeline._process_batch`: bulk-insert the records, then update the
stats with the price column of the chunk *passed by the caller* — which is
the original, un-filled chunk (nulls arrive as NaN). -/
def processBatchStep (st : PipeState) (records : List Rec) (chunk : List Row) : PipeState :=
  { st with pending := st.pending ++ records
            stats := updateFromBatch st.stats (chunkPricesNumpy chunk) }

/-- `Pipeline._process_row_by_row`: for `i, record in enumerate(records)`,
insert the record, then update the stats with the single-element series
`[prices[i]]`, where `prices` is the numpy export of the caller's
(un-filled) chunk.  `records` and `prices` have one entry per chunk row, so
the enumerate-and-index loop is a zip. -/
def processRowByRow (st : PipeState) (records : List Rec) (chunk : List Row) : PipeState :=
  (records.zip (chunkPricesNumpy chunk)).foldl
    (fun s rp =>
      { s with pending := s.pending ++ [rp.1]
               stats := updateFromBatch s.stats [rp.2] })
    st

/-- The windowing loop of `Pipeline.process_csv_file`: slice
`chunkSize` rows at `offset`, stop on an empty slice, advance `offset` by
the fixed stride `chunkSize`.  (With `chunkSize = 0` the Python loop would
never terminate; the pipeline always runs with `chunk_size = 1000`, and we
make that unreachable case return `[]`.) -/
def sliceWindows (rows : List Row) (csize offset : Nat) : List (List Row) :=
  if hc : csize = 0 then []
  else if hne : (rows.drop offset).take csize = [] then []
  else ((rows.drop offset).take csize) :: sliceWindows rows csize (offset + csize)
termination_by rows.length - offset
decreasing_by
  have hlt : offset < rows.length := by
    by_contra hge
    exact hne (by simp [List.drop_eq_nil_of_le (Nat.le_of_not_lt hge)])
  omega

/-- The per-window body of `process_csv_file`'s `while` loop, threading the
store/stats state and the running row total; a failure in
`_prepare_records` escapes with the state as it stood (the `except` clause
of `process_csv_file` handles it). -/
def runWindows (st : PipeState) (total : Nat) (ws : List (List Row))
    (filename : String) (updatePerRow : Bool) : PipeState × Except String Nat :=
  match ws with
  | [] => (st, .ok total)
  | w :: rest =>
    match prepareRecords w filename with
    | .error e => (st, .error e)
    | .ok records =>
      let st' := if updatePerRow then processRowByRow st records w
                 else processBatchStep st records w
      runWindows st' (total + records.length) rest filename updatePerRow

/-- `Pipeline.process_csv_file`: run the windowed loop; on success commit
the transaction and return the row total, on any failure roll back and
re-raise. -/
def processCsvFile (st : PipeState) (rows : List Row) (filename : String)
    (csize : Nat) (updatePerRow : Bool) : PipeState × Except String Nat :=
  match runWindows st 0 (sliceWindows rows csize 0) filename updatePerRow with
  | (st', .ok total) =>
    ({ st' with committed := st'.committed ++ st'.pending, pending := [] }, .ok total)
  | (st', .error e) =>
    ({ st' with pending := [] }, .error e)

/-- Python truthiness of an optional SQL value: `NULL` (None) and `0` are
falsy, everything else (NaN included) truthy. -/
def pyTruthy (o : Option F) : Bool :=
  match o with
  | none => false
  | some v => decide (v ≠ F.fin 0)

/-- `Pipeline.verify_results_from_db`, applied to the single row the
aggregate query returns: `(COUNT(*), AVG(price)::numeric(10,2),
MIN(price), MAX(price))` with the three aggregates `NULL` on an empty
table.  `result[0] or 0` and `float(result[i]) if result[i] else 0.0`
map falsy values to zero. -/
def verifyResultsFromDb (row : Nat × Option F × Option F × Option F) : Snapshot :=
  { count := if row.1 = 0 then 0 else row.1
    mean := if pyTruthy row.2.1 then (row.2.1).getD (F.fin 0) else F.fin 0
    min := if pyTruthy row.2.2.1 then (row.2.2.1).getD (F.fin 0) else F.fin 0
    max := if pyTruthy row.2.2.2 then (row.2.2.2).getD (F.fin 0) else F.fin 0 }

/-! ## Driver embedding (`src/main.py`) -/

/-- The `__main__` block of `src/main.py`, abstracted to the sequence of
`process_csv_file` invocations it issues: `(filepath, update_per_row)`
pairs.  `datedExists i` tells whether `./data/2012-(i+1).csv` exists,
`validationExists` whether `./data/validation.csv` exists.  The loop body
is `for i in range(1, 6)`: missing dated file → `continue`; otherwise
process the dated file with the batch policy and then — still inside the
loop — process `validation.csv` with `update_per_row=True` when present. -/
def mainCalls (datedExists : Nat → Bool) (validationExists : Bool) : List (String × Bool) :=
  ((List.range 5).map (fun i =>
    if datedExists (i + 1) then
      ("2012-" ++ toString (i + 1) ++ ".csv", false) ::
        (if validationExists then [("validation.csv", true)] else [])
    else [])).flatten

/-! ## Auxiliary definitions used by the statements -/

/-- Non-strict comparison used to state monotonicity: the value stayed
exactly the same or strictly moved in the given direction ("never
decreases" = the new value is never IEEE-below the old one). -/
def fleq (a b : F) : Prop := a = b ∨ F.lt a b = true

/-- First row of the spec scenario: `("01/01/2012", 10.0, "u1")`. -/
def rowA : Row := { date := "01/01/2012", price := some (F.fin 10), user := "u1" }

/-- Second row of the spec scenario: `("01/02/2012", null, "u2")`. -/
def rowB : Row := { date := "01/02/2012", price := none, user := "u2" }

/-- A row whose date `datetime.strptime` rejects. -/
def badRow : Row := { date := "nodate", price := some (F.fin 1), user := "u3" }

/-- A fresh pipeline: empty store, open (empty) transaction, `Stats()`. -/
def pipeInit : PipeState := { committed := [], pending := [], stats := statsInit }

/-- Agreement of two accumulator states on the components that are
insensitive to float64 rounding: COUNT (an integer) and
MIN_VALUE/MAX_VALUE (comparisons and selections of existing values, no
arithmetic).  SUM is deliberately not compared: the program accumulates it
in rounded float64 arithmetic, where the grouping of additions matters,
which this exact-arithmetic model does not capture. -/
def Stats.agreeNoSum (s1 s2 : Stats) : Prop :=
  s1.COUNT = s2.COUNT ∧ s1.MIN_VALUE = s2.MIN_VALUE ∧ s1.MAX_VALUE = s2.MAX_VALUE

/-- Agreement of two pipeline states: identical store contents, and
accumulators agreeing on their rounding-insensitive components. -/
def PipeState.agreeNoSum (p1 p2 : PipeState) : Prop :=
  p1.committed = p2.committed ∧ p1.pending = p2.pending
    ∧ Stats.agreeNoSum p1.stats p2.stats

/-! ## Algebraic lemmas about the IEEE value model -/

theorem F.lt_nan_left (b : F) : F.lt F.nan b = false := by cases b <;> rfl

theorem F.lt_nan_right (a : F) : F.lt a F.nan = false := by cases a <;> rfl

theorem F.lt_inf_left (b : F) : F.lt F.inf b = false := by cases b <;> rfl

theorem F.lt_fin_fin (p q : ℚ) : F.lt (F.fin p) (F.fin q) = decide (p < q) := rfl

theorem F.lt_ninf_fin (q : ℚ) : F.lt F.ninf (F.fin q) = true := rfl

theorem F.lt_ninf_inf : F.lt F.ninf F.inf = true := rfl

theorem F.lt_ninf_ninf : F.lt F.ninf F.ninf = false := rfl

theorem F.lt_fin_ninf (q : ℚ) : F.lt (F.fin q) F.ninf = false := rfl

theorem F.lt_fin_inf (q : ℚ) : F.lt (F.fin q) F.inf = true := rfl

theorem npfmin_assoc (a b c : F) : npfmin (npfmin a b) c = npfmin a (npfmin b c) := by
  cases a <;> cases b <;> cases c <;>
    simp only [npfmin, pymin, F.isNan, F.lt_nan_left, F.lt_nan_right, F.lt_inf_left,
      F.lt_fin_fin, F.lt_ninf_fin, F.lt_ninf_inf, F.lt_ninf_ninf, F.lt_fin_ninf,
      F.lt_fin_inf, Bool.or_self, Bool.false_or, Bool.or_false, Bool.true_or,
      Bool.or_true, if_true, if_false] <;>
    split_ifs <;>
    simp_all [F.lt_nan_left, F.lt_nan_right, F.lt_inf_left, F.lt_fin_fin,
      F.lt_ninf_fin, F.lt_ninf_inf, F.lt_ninf_ninf, F.lt_fin_ninf, F.lt_fin_inf] <;>
    first | rfl | linarith

theorem npfmax_assoc (a b c : F) : npfmax (npfmax a b) c = npfmax a (npfmax b c) := by
  cases a <;> cases b <;> cases c <;>
    simp only [npfmax, pymax, F.isNan, F.lt_nan_left, F.lt_nan_right, F.lt_inf_left,
      F.lt_fin_fin, F.lt_ninf_fin, F.lt_ninf_inf, F.lt_ninf_ninf, F.lt_fin_ninf,
      F.lt_fin_inf, Bool.or_self, Bool.false_or, Bool.or_false, Bool.true_or,
      Bool.or_true, if_true, if_false] <;>
    split_ifs <;>
    simp_all [F.lt_nan_left, F.lt_nan_right, F.lt_inf_left, F.lt_fin_fin,
      F.lt_ninf_fin, F.lt_ninf_inf, F.lt_ninf_ninf, F.lt_fin_ninf, F.lt_fin_inf] <;>
    first | rfl | linarith

theorem F.isNan_iff (x : F) : x.isNan = true ↔ x = F.nan := by
  cases x <;> simp [F.isNan]

theorem foldl_npfmin_eq (l : List F) (x : F) (h : l ≠ []) :
    l.foldl npfmin x = npfmin x (npMin l) := by
  induction l generalizing x with
  | nil => exact absurd rfl h
  | cons p rest ih =>
    cases hr : rest with
    | nil => simp [npMin]
    | cons y ys =>
      subst hr
      have hne : y :: ys ≠ [] := by simp
      rw [List.foldl_cons, ih (npfmin x p) hne]
      have hstep : npMin (p :: y :: ys) = npfmin p (npMin (y :: ys)) := by
        show (y :: ys).foldl npfmin p = _
        exact ih p hne
      rw [hstep, npfmin_assoc]

theorem foldl_npfmax_eq (l : List F) (x : F) (h : l ≠ []) :
    l.foldl npfmax x = npfmax x (npMax l) := by
  induction l generalizing x with
  | nil => exact absurd rfl h
  | cons p rest ih =>
    cases hr : rest with
    | nil => simp [npMax]
    | cons y ys =>
      subst hr
      have hne : y :: ys ≠ [] := by simp
      rw [List.foldl_cons, ih (npfmax x p) hne]
      have hstep : npMax (p :: y :: ys) = npfmax p (npMax (y :: ys)) := by
        show (y :: ys).foldl npfmax p = _
        exact ih p hne
      rw [hstep, npfmax_assoc]

theorem npMin_append (a b : List F) (ha : a ≠ []) (hb : b ≠ []) :
    npMin (a ++ b) = npfmin (npMin a) (npMin b) := by
  cases a with
  | nil => exact absurd rfl ha
  | cons x xs =>
    simp only [List.cons_append, npMin, List.foldl_append]
    exact foldl_npfmin_eq b (xs.foldl npfmin x) hb

theorem npMax_append (a b : List F) (ha : a ≠ []) (hb : b ≠ []) :
    npMax (a ++ b) = npfmax (npMax a) (npMax b) := by
  cases a with
  | nil => exact absurd rfl ha
  | cons x xs =>
    simp only [List.cons_append, npMax, List.foldl_append]
    exact foldl_npfmax_eq b (xs.foldl npfmax x) hb

theorem npfmin_not_nan (a b : F) (ha : a.isNan = false) (hb : b.isNan = false) :
    (npfmin a b).isNan = false := by
  simp only [npfmin, ha, hb, Bool.or_self, Bool.false_eq_true, if_false, pymin]
  split <;> assumption

theorem npfmax_not_nan (a b : F) (ha : a.isNan = false) (hb : b.isNan = false) :
    (npfmax a b).isNan = false := by
  simp only [npfmax, ha, hb, Bool.or_self, Bool.false_eq_true, if_false, pymax]
  split <;> assumption

theorem foldl_npfmin_not_nan (l : List F) (x : F) (hx : x.isNan = false)
    (hl : ∀ y ∈ l, y.isNan = false) : (l.foldl npfmin x).isNan = false := by
  induction l generalizing x with
  | nil => simpa using hx
  | cons y ys ih =>
    rw [List.foldl_cons]
    exact ih (npfmin x y) (npfmin_not_nan x y hx (hl y (List.mem_cons_self y ys)))
      (fun z hz => hl z (List.mem_cons_of_mem y hz))

theorem foldl_npfmax_not_nan (l : List F) (x : F) (hx : x.isNan = false)
    (hl : ∀ y ∈ l, y.isNan = false) : (l.foldl npfmax x).isNan = false := by
  induction l generalizing x with
  | nil => simpa using hx
  | cons y ys ih =>
    rw [List.foldl_cons]
    exact ih (npfmax x y) (npfmax_not_nan x y hx (hl y (List.mem_cons_self y ys)))
      (fun z hz => hl z (List.mem_cons_of_mem y hz))

theorem not_nan_of_mem (l : List F) (hn : F.nan ∉ l) (y : F) (hy : y ∈ l) :
    y.isNan = false := by
  cases hiy : y.isNan
  · rfl
  · exact absurd (((F.isNan_iff y).mp hiy) ▸ hy) hn

theorem npMin_not_nan (l : List F) (h : l ≠ []) (hn : F.nan ∉ l) :
    (npMin l).isNan = false := by
  cases l with
  | nil => exact absurd rfl h
  | cons x xs =>
    show (xs.foldl npfmin x).isNan = false
    exact foldl_npfmin_not_nan xs x
      (not_nan_of_mem (x :: xs) hn x (List.mem_cons_self x xs))
      (fun z hz => not_nan_of_mem (x :: xs) hn z (List.mem_cons_of_mem x hz))

theorem npMax_not_nan (l : List F) (h : l ≠ []) (hn : F.nan ∉ l) :
    (npMax l).isNan = false := by
  cases l with
  | nil => exact absurd rfl h
  | cons x xs =>
    show (xs.foldl npfmax x).isNan = false
    exact foldl_npfmax_not_nan xs x
      (not_nan_of_mem (x :: xs) hn x (List.mem_cons_self x xs))
      (fun z hz => not_nan_of_mem (x :: xs) hn z (List.mem_cons_of_mem x hz))

theorem pymin_npfmin (s a b : F) (ha : a.isNan = false) (hb : b.isNan = false) :
    pymin (pymin s a) b = pymin s (npfmin a b) := by
  cases s <;> cases a <;> cases b <;>
    simp_all [npfmin, pymin, F.isNan, F.lt_nan_left, F.lt_nan_right, F.lt_inf_left,
      F.lt_fin_fin, F.lt_ninf_fin, F.lt_ninf_inf, F.lt_ninf_ninf, F.lt_fin_ninf,
      F.lt_fin_inf] <;>
    split_ifs <;>
    simp_all [F.lt_nan_left, F.lt_nan_right, F.lt_inf_left, F.lt_fin_fin,
      F.lt_ninf_fin, F.lt_ninf_inf, F.lt_ninf_ninf, F.lt_fin_ninf, F.lt_fin_inf] <;>
    first | rfl | linarith

theorem pymax_npfmax (s a b : F) (ha : a.isNan = false) (hb : b.isNan = false) :
    pymax (pymax s a) b = pymax s (npfmax a b) := by
  cases s <;> cases a <;> cases b <;>
    simp_all [npfmax, pymax, F.isNan, F.lt_nan_left, F.lt_nan_right, F.lt_inf_left,
      F.lt_fin_fin, F.lt_ninf_fin, F.lt_ninf_inf, F.lt_ninf_ninf, F.lt_fin_ninf,
      F.lt_fin_inf] <;>
    split_ifs <;>
    simp_all [F.lt_nan_left, F.lt_nan_right, F.lt_inf_left, F.lt_fin_fin,
      F.lt_ninf_fin, F.lt_ninf_inf, F.lt_ninf_ninf, F.lt_fin_ninf, F.lt_fin_inf] <;>
    first | rfl | linarith

/-! ## Accumulator lemmas

These lemmas only concern the accumulator components whose values do not
depend on float64 rounding: COUNT, MIN_VALUE and MAX_VALUE.  None of them
equates differently-grouped sums. -/

theorem updateFromBatch_COUNT (s : Stats) (prices : List F) :
    (updateFromBatch s prices).COUNT = s.COUNT + prices.length := by
  unfold updateFromBatch
  split
  · rename_i h
    omega
  · rfl

theorem updateFromBatch_MIN (s : Stats) (prices : List F) (h : prices ≠ []) :
    (updateFromBatch s prices).MIN_VALUE = pymin s.MIN_VALUE (npMin prices) := by
  unfold updateFromBatch
  rw [if_neg (fun h0 => h (List.length_eq_zero.mp h0))]

theorem updateFromBatch_MAX (s : Stats) (prices : List F) (h : prices ≠ []) :
    (updateFromBatch s prices).MAX_VALUE = pymax s.MAX_VALUE (npMax prices) := by
  unfold updateFromBatch
  rw [if_neg (fun h0 => h (List.length_eq_zero.mp h0))]

theorem updateFromBatch_append_COUNT (s : Stats) (a b : List F) :
    (updateFromBatch (updateFromBatch s a) b).COUNT
      = (updateFromBatch s (a ++ b)).COUNT := by
  rw [updateFromBatch_COUNT, updateFromBatch_COUNT, updateFromBatch_COUNT,
    List.length_append]
  omega

theorem updateFromBatch_append_MIN (s : Stats) (a b : List F)
    (ha : a ≠ []) (hb : b ≠ []) (hna : F.nan ∉ a) (hnb : F.nan ∉ b) :
    (updateFromBatch (updateFromBatch s a) b).MIN_VALUE
      = (updateFromBatch s (a ++ b)).MIN_VALUE := by
  have hab : a ++ b ≠ [] := fun h0 => ha (List.append_eq_nil.mp h0).1
  rw [updateFromBatch_MIN _ b hb, updateFromBatch_MIN s a ha,
    updateFromBatch_MIN s (a ++ b) hab, npMin_append a b ha hb,
    pymin_npfmin s.MIN_VALUE (npMin a) (npMin b)
      (npMin_not_nan a ha hna) (npMin_not_nan b hb hnb)]

theorem updateFromBatch_append_MAX (s : Stats) (a b : List F)
    (ha : a ≠ []) (hb : b ≠ []) (hna : F.nan ∉ a) (hnb : F.nan ∉ b) :
    (updateFromBatch (updateFromBatch s a) b).MAX_VALUE
      = (updateFromBatch s (a ++ b)).MAX_VALUE := by
  have hab : a ++ b ≠ [] := fun h0 => ha (List.append_eq_nil.mp h0).1
  rw [updateFromBatch_MAX _ b hb, updateFromBatch_MAX s a ha,
    updateFromBatch_MAX s (a ++ b) hab, npMax_append a b ha hb,
    pymax_npfmax s.MAX_VALUE (npMax a) (npMax b)
      (npMax_not_nan a ha hna) (npMax_not_nan b hb hnb)]

theorem foldl_single_COUNT (w : List F) (s : Stats) :
    (w.foldl (fun st p => updateFromBatch st [p]) s).COUNT = s.COUNT + w.length := by
  induction w generalizing s with
  | nil => simp
  | cons p rest ih =>
    rw [List.foldl_cons, ih, updateFromBatch_COUNT]
    simp
    omega

theorem foldl_single_MIN (w : List F) (s : Stats) (hn : F.nan ∉ w) :
    (w.foldl (fun st p => updateFromBatch st [p]) s).MIN_VALUE
      = (updateFromBatch s w).MIN_VALUE := by
  induction w generalizing s with
  | nil => rfl
  | cons p rest ih =>
    rw [List.foldl_cons]
    cases hr : rest with
    | nil => rfl
    | cons y ys =>
      subst hr
      have hrest : F.nan ∉ y :: ys := fun hm => hn (List.mem_cons_of_mem p hm)
      have hp : F.nan ∉ [p] := by
        intro hm
        rcases List.mem_singleton.mp hm with h
        exact hn (h ▸ List.mem_cons_self p (y :: ys))
      rw [ih (updateFromBatch s [p]) hrest]
      exact updateFromBatch_append_MIN s [p] (y :: ys) (by simp) (by simp) hp hrest

theorem foldl_single_MAX (w : List F) (s : Stats) (hn : F.nan ∉ w) :
    (w.foldl (fun st p => updateFromBatch st [p]) s).MAX_VALUE
      = (updateFromBatch s w).MAX_VALUE := by
  induction w generalizing s with
  | nil => rfl
  | cons p rest ih =>
    rw [List.foldl_cons]
    cases hr : rest with
    | nil => rfl
    | cons y ys =>
      subst hr
      have hrest : F.nan ∉ y :: ys := fun hm => hn (List.mem_cons_of_mem p hm)
      have hp : F.nan ∉ [p] := by
        intro hm
        rcases List.mem_singleton.mp hm with h
        exact hn (h ▸ List.mem_cons_self p (y :: ys))
      rw [ih (updateFromBatch s [p]) hrest]
      exact updateFromBatch_append_MAX s [p] (y :: ys) (by simp) (by simp) hp hrest

/-! ## Pipeline lemmas -/

theorem buildRecords_ok_length (fn : String) :
    ∀ (l : List Row) (rs : List Rec), buildRecords l fn = .ok rs → rs.length = l.length := by
  intro l
  induction l with
  | nil =>
    intro rs h
    cases h
    rfl
  | cons r rest ih =>
    intro rs h
    simp only [buildRecords] at h
    cases hd : strptimeMDY r.date with
    | none => rw [hd] at h; cases h
    | some d =>
      rw [hd] at h
      cases hrest : buildRecords rest fn with
      | error e => rw [hrest] at h; cases h
      | ok ys =>
        rw [hrest] at h
        cases h
        simp [ih ys hrest]

theorem prepareRecords_length (chunk : List Row) (fn : String) (rs : List Rec)
    (h : prepareRecords chunk fn = .ok rs) : rs.length = chunk.length := by
  have := buildRecords_ok_length fn (chunk.map fillNullZero) rs h
  simpa using this

theorem buildRecords_ok (fn : String) (l : List Row)
    (h : ∀ r ∈ l, (strptimeMDY r.date).isSome) :
    ∃ rs, buildRecords l fn = .ok rs := by
  induction l with
  | nil => exact ⟨[], rfl⟩
  | cons r rest ih =>
    obtain ⟨rs, hrs⟩ := ih (fun x hx => h x (List.mem_cons_of_mem r hx))
    obtain ⟨d, hd⟩ := Option.isSome_iff_exists.mp (h r (List.mem_cons_self r rest))
    refine ⟨{ timestamp := d, price := r.price.getD (F.fin 0),
              user := r.user, fileSource := fn } :: rs, ?_⟩
    simp only [buildRecords, hd, hrs]

theorem prepareRecords_ok (chunk : List Row) (fn : String)
    (h : ∀ r ∈ chunk, (strptimeMDY r.date).isSome) :
    ∃ rs, prepareRecords chunk fn = .ok rs := by
  refine buildRecords_ok fn (chunk.map fillNullZero) ?_
  intro r hr
  obtain ⟨r0, hr0, hfill⟩ := List.mem_map.mp hr
  have : r.date = r0.date := by rw [← hfill]; rfl
  rw [this]
  exact h r0 hr0

theorem foldl_insert_update (pairs : List (Rec × F)) (st : PipeState) :
    pairs.foldl
      (fun s rp =>
        { s with pending := s.pending ++ [rp.1]
                 stats := updateFromBatch s.stats [rp.2] })
      st
    = { st with pending := st.pending ++ pairs.map Prod.fst
                stats := (pairs.map Prod.snd).foldl
                  (fun s p => updateFromBatch s [p]) st.stats } := by
  induction pairs generalizing st with
  | nil => simp
  | cons rp rest ih =>
    rw [List.foldl_cons, ih]
    simp [List.append_assoc]

theorem chunkPricesNumpy_length (chunk : List Row) :
    (chunkPricesNumpy chunk).length = chunk.length := by
  simp [chunkPricesNumpy]

theorem chunkPricesNumpy_no_nan (chunk : List Row)
    (hfin : ∀ r ∈ chunk, ∃ q, r.price = some (F.fin q)) :
    F.nan ∉ chunkPricesNumpy chunk := by
  intro hmem
  simp only [chunkPricesNumpy, List.mem_map] at hmem
  obtain ⟨r, hr, hval⟩ := hmem
  obtain ⟨q, hq⟩ := hfin r hr
  rw [hq] at hval
  cases hval

theorem processRowByRow_agree_batch (s1 s2 : PipeState) (records : List Rec)
    (chunk : List Row)
    (hlen : records.length = chunk.length)
    (hfin : ∀ r ∈ chunk, ∃ q, r.price = some (F.fin q))
    (hag : PipeState.agreeNoSum s1 s2) :
    PipeState.agreeNoSum (processRowByRow s1 records chunk)
      (processBatchStep s2 records chunk) := by
  unfold PipeState.agreeNoSum Stats.agreeNoSum at hag ⊢
  obtain ⟨hcomm, hpend, hcount, hmin, hmax⟩ := hag
  unfold processRowByRow processBatchStep
  rw [foldl_insert_update]
  have hle : records.length ≤ (chunkPricesNumpy chunk).length := by
    rw [chunkPricesNumpy_length, hlen]
  have hge : (chunkPricesNumpy chunk).length ≤ records.length := by
    rw [chunkPricesNumpy_length, hlen]
  rw [List.map_fst_zip records (chunkPricesNumpy chunk) hle,
    List.map_snd_zip records (chunkPricesNumpy chunk) hge]
  have hnan := chunkPricesNumpy_no_nan chunk hfin
  refine ⟨hcomm, ?_, ?_, ?_, ?_⟩
  · show s1.pending ++ records = s2.pending ++ records
    rw [hpend]
  · show ((chunkPricesNumpy chunk).foldl (fun st p => updateFromBatch st [p]) s1.stats).COUNT
      = (updateFromBatch s2.stats (chunkPricesNumpy chunk)).COUNT
    rw [foldl_single_COUNT, updateFromBatch_COUNT, hcount]
  · show ((chunkPricesNumpy chunk).foldl (fun st p => updateFromBatch st [p]) s1.stats).MIN_VALUE
      = (updateFromBatch s2.stats (chunkPricesNumpy chunk)).MIN_VALUE
    rw [foldl_single_MIN (chunkPricesNumpy chunk) s1.stats hnan]
    cases hc : chunkPricesNumpy chunk with
    | nil => exact hmin
    | cons x xs =>
      rw [updateFromBatch_MIN s1.stats (x :: xs) (by simp),
        updateFromBatch_MIN s2.stats (x :: xs) (by simp), hmin]
  · show ((chunkPricesNumpy chunk).foldl (fun st p => updateFromBatch st [p]) s1.stats).MAX_VALUE
      = (updateFromBatch s2.stats (chunkPricesNumpy chunk)).MAX_VALUE
    rw [foldl_single_MAX (chunkPricesNumpy chunk) s1.stats hnan]
    cases hc : chunkPricesNumpy chunk with
    | nil => exact hmax
    | cons x xs =>
      rw [updateFromBatch_MAX s1.stats (x :: xs) (by simp),
        updateFromBatch_MAX s2.stats (x :: xs) (by simp), hmax]

theorem processBatchStep_committed (st : PipeState) (records : List Rec) (chunk : List Row) :
    (processBatchStep st records chunk).committed = st.committed := rfl

theorem processRowByRow_committed (st : PipeState) (records : List Rec) (chunk : List Row) :
    (processRowByRow st records chunk).committed = st.committed := by
  unfold processRowByRow
  rw [foldl_insert_update]

theorem runWindows_committed (ws : List (List Row)) (st : PipeState) (total : Nat)
    (fn : String) (upr : Bool) :
    (runWindows st total ws fn upr).1.committed = st.committed := by
  induction ws generalizing st total with
  | nil => rfl
  | cons w rest ih =>
    simp only [runWindows]
    cases h : prepareRecords w fn with
    | error e => rfl
    | ok records =>
      cases upr with
      | true => simpa [ih] using processRowByRow_committed st records w
      | false => simpa [ih] using processBatchStep_committed st records w

theorem runWindows_ok_total (fn : String) (upr : Bool) (ws : List (List Row)) :
    ∀ (st : PipeState) (total : Nat),
    (∀ w ∈ ws, ∀ r ∈ w, (strptimeMDY r.date).isSome) →
    (runWindows st total ws fn upr).2 = .ok (total + (ws.map List.length).sum) := by
  induction ws with
  | nil => intro st total _; simp [runWindows]
  | cons w rest ih =>
    intro st total hok
    obtain ⟨rs, hrs⟩ := prepareRecords_ok w fn (hok w (List.mem_cons_self w rest))
    simp only [runWindows, hrs]
    have hlen : rs.length = w.length := prepareRecords_length w fn rs hrs
    cases upr with
    | true =>
      rw [ih _ _ (fun v hv r hr => hok v (List.mem_cons_of_mem w hv) r hr)]
      simp [hlen]
      omega
    | false =>
      rw [ih _ _ (fun v hv r hr => hok v (List.mem_cons_of_mem w hv) r hr)]
      simp [hlen]
      omega

theorem sliceWindows_stop (rows : List Row) (csize offset : Nat)
    (h : rows.length ≤ offset) : sliceWindows rows csize offset = [] := by
  rw [sliceWindows]
  split
  · rfl
  · rw [dif_pos (by simp [List.drop_eq_nil_of_le h])]

theorem sliceWindows_step (rows : List Row) (csize offset : Nat)
    (hc : csize ≠ 0) (h : offset < rows.length) :
    sliceWindows rows csize offset
      = ((rows.drop offset).take csize) :: sliceWindows rows csize (offset + csize) := by
  rw [sliceWindows]
  rw [dif_neg hc]
  have hne : (rows.drop offset).take csize ≠ [] := by
    have hd : rows.drop offset ≠ [] := by
      intro hnil
      rw [List.drop_eq_nil_iff] at hnil
      omega
    intro htake
    rcases List.take_eq_nil_iff.mp htake with h0 | h0
    · exact hc h0
    · exact hd h0
  rw [dif_neg hne]

theorem sliceWindows_flatten (rows : List Row) (csize : Nat) (hc : csize ≠ 0) :
    ∀ offset : Nat, (sliceWindows rows csize offset).flatten = rows.drop offset := by
  have key : ∀ (n offset : Nat), rows.length - offset ≤ n →
      (sliceWindows rows csize offset).flatten = rows.drop offset := by
    intro n
    induction n with
    | zero =>
      intro off h
      rw [sliceWindows_stop rows csize off (by omega)]
      simp [List.drop_eq_nil_of_le (by omega : rows.length ≤ off)]
    | succ n ih =>
      intro off h
      by_cases hlt : off < rows.length
      · rw [sliceWindows_step rows csize off hc hlt, List.flatten_cons,
          ih (off + csize) (by omega), ← List.drop_drop, List.take_append_drop]
      · rw [sliceWindows_stop rows csize off (Nat.le_of_not_lt hlt)]
        simp [List.drop_eq_nil_of_le (Nat.le_of_not_lt hlt)]
  exact fun offset => key (rows.length - offset) offset (le_refl _)

theorem runWindows_policy_agree (fn : String) (ws : List (List Row)) :
    ∀ (s1 s2 : PipeState) (t : Nat),
    PipeState.agreeNoSum s1 s2 →
    (∀ w ∈ ws, ∀ r ∈ w, ∃ q, r.price = some (F.fin q)) →
    PipeState.agreeNoSum (runWindows s1 t ws fn true).1 (runWindows s2 t ws fn false).1
    ∧ (runWindows s1 t ws fn true).2 = (runWindows s2 t ws fn false).2 := by
  induction ws with
  | nil => intro s1 s2 t hag _; exact ⟨hag, rfl⟩
  | cons w rest ih =>
    intro s1 s2 t hag hfin
    cases h : prepareRecords w fn with
    | error e => simp only [runWindows, h]; exact ⟨hag, trivial⟩
    | ok records =>
      simp only [runWindows, h, if_true, Bool.false_eq_true, if_false]
      exact ih _ _ _
        (processRowByRow_agree_batch s1 s2 records w
          (prepareRecords_length w fn records h)
          (hfin w (List.mem_cons_self w rest)) hag)
        (fun v hv => hfin v (List.mem_cons_of_mem w hv))

theorem mem_of_mem_sliceWindows (rows : List Row) (csize : Nat) (hc : csize ≠ 0)
    (w : List Row) (hw : w ∈ sliceWindows rows csize 0) (r : Row) (hr : r ∈ w) :
    r ∈ rows := by
  have hfl := sliceWindows_flatten rows csize hc 0
  have hmem : r ∈ (sliceWindows rows csize 0).flatten := List.mem_flatten.mpr ⟨w, hw, hr⟩
  rw [hfl] at hmem
  simpa using hmem

theorem npSum_fin_nonneg (l : List F) (h : ∀ x ∈ l, ∃ q, x = F.fin q ∧ 0 ≤ q) :
    ∃ q, npSum l = F.fin q ∧ 0 ≤ q := by
  have aux : ∀ (l : List F) (p : ℚ), 0 ≤ p → (∀ x ∈ l, ∃ q, x = F.fin q ∧ 0 ≤ q) →
      ∃ q, l.foldl F.add (F.fin p) = F.fin q ∧ 0 ≤ q := by
    intro l
    induction l with
    | nil => intro p hp _; exact ⟨p, rfl, hp⟩
    | cons x xs ih =>
      intro p hp hx
      obtain ⟨q, hq, hq0⟩ := hx x (List.mem_cons_self x xs)
      rw [List.foldl_cons, hq]
      have : F.add (F.fin p) (F.fin q) = F.fin (p + q) := rfl
      rw [this]
      exact ih (p + q) (by linarith) (fun y hy => hx y (List.mem_cons_of_mem x hy))
  exact aux l 0 le_rfl h

/-! ## Claim theorems -/

/-- Claim C8: reading the accumulator before any update returns
`{count: 0, mean: 0.0, min: 0.0, max: 0.0}`; `get_current_stats` is a pure
read that yields 0.0 for min/max whenever the `±inf` sentinels are still in
place (in particular whenever `count = 0`, since the sentinels are then
untouched), and the mean is derived as `SUM / COUNT` (0.0 when
`count = 0`), never stored. -/
theorem claim8_initial_snapshot :
    getCurrentStats statsInit = { count := 0, mean := F.fin 0, min := F.fin 0, max := F.fin 0 }
    ∧ (∀ s : Stats, s.COUNT = 0 → (getCurrentStats s).mean = F.fin 0)
    ∧ (∀ s : Stats, s.MIN_VALUE = F.inf → (getCurrentStats s).min = F.fin 0)
    ∧ (∀ s : Stats, s.MAX_VALUE = F.ninf → (getCurrentStats s).max = F.fin 0)
    ∧ (∀ s : Stats, 0 < s.COUNT → (getCurrentStats s).mean = fdivNat s.SUM s.COUNT) := by
  refine ⟨by decide, ?_, ?_, ?_, ?_⟩
  · intro s h; simp [getCurrentStats, statsMean, h]
  · intro s h; simp [getCurrentStats, h]
  · intro s h; simp [getCurrentStats, h]
  · intro s h; simp [getCurrentStats, statsMean, h]

/-- Witness for C8 at the initial state. -/
theorem claim8_witness :
    statsInit.COUNT = 0 ∧ (getCurrentStats statsInit).mean = F.fin 0 :=
  ⟨rfl, claim8_initial_snapshot.2.1 statsInit rfl⟩

/-- Claim C9: `update_from_batch` with an empty sequence is a no-op — the state
is unchanged and a subsequent snapshot is identical. -/
theorem claim9_empty_update_noop (s : Stats) :
    updateFromBatch s [] = s ∧ getCurrentStats (updateFromBatch s []) = getCurrentStats s := by
  refine ⟨rfl, rfl⟩

/-- Claim C10: on the aggregate row of an empty table — count 0, NULL average,
minimum, maximum — `verify_results_from_db` returns
`{count: 0, mean: 0.0, min: 0.0, max: 0.0}`, the same shape and values as
the accumulator's initial snapshot. -/
theorem claim10_empty_table_verification :
    verifyResultsFromDb (0, none, none, none)
      = { count := 0, mean := F.fin 0, min := F.fin 0, max := F.fin 0 }
    ∧ verifyResultsFromDb (0, none, none, none) = getCurrentStats statsInit := by
  exact ⟨rfl, by decide⟩

/-- Claim C2 counterexample: the claim quantifies over all non-empty float
sequences, but NaN is a float value the pipeline really produces (a null
price), and with `a = [NaN]`, `b = [5.0]` from the initial state the
sequential updates end with `MIN_VALUE = 5.0` while the single combined
update ends with `MIN_VALUE = +inf` (numpy's min propagates the NaN and
Python's `min(inf, nan)` keeps `inf`), so the two runs disagree. -/
theorem claim2_counterexample :
    (updateFromBatch (updateFromBatch statsInit [F.nan]) [F.fin 5]).MIN_VALUE = F.fin 5
    ∧ (updateFromBatch statsInit ([F.nan] ++ [F.fin 5])).MIN_VALUE = F.inf
    ∧ updateFromBatch (updateFromBatch statsInit [F.nan]) [F.fin 5]
        ≠ updateFromBatch statsInit ([F.nan] ++ [F.fin 5]) := by
  refine ⟨by decide, by decide, by decide⟩

/-- Claim C2 (amended): for every accumulator state and all non-empty
sequences of non-NaN floats `a`, `b`, `update(a); update(b)` leaves the
accumulator with the same COUNT, MIN_VALUE and MAX_VALUE as the single
call `update(a ++ b)`.  The SUMs are not compared: the program accumulates
SUM in float64, where each addition rounds and the result depends on how
the additions are grouped (e.g. `(0.1+0.2)+0.3 ≠ 0.1+(0.2+0.3)` in
float64), so the sequential and combined sums agree only up to rounding;
count, min and max involve no arithmetic — only exact comparisons and
selections of existing values — and agree exactly. -/
theorem claim2_batch_equivalence (s : Stats) (a b : List F)
    (ha : a ≠ []) (hb : b ≠ []) (hna : F.nan ∉ a) (hnb : F.nan ∉ b) :
    (updateFromBatch (updateFromBatch s a) b).COUNT
        = (updateFromBatch s (a ++ b)).COUNT
    ∧ (updateFromBatch (updateFromBatch s a) b).MIN_VALUE
        = (updateFromBatch s (a ++ b)).MIN_VALUE
    ∧ (updateFromBatch (updateFromBatch s a) b).MAX_VALUE
        = (updateFromBatch s (a ++ b)).MAX_VALUE :=
  ⟨updateFromBatch_append_COUNT s a b,
    updateFromBatch_append_MIN s a b ha hb hna hnb,
    updateFromBatch_append_MAX s a b ha hb hna hnb⟩

/-- Witness for C2 at `a = [1.0]`, `b = [2.0]`. -/
theorem claim2_witness :
    ([F.fin 1] ≠ ([] : List F)) ∧ ([F.fin 2] ≠ ([] : List F))
    ∧ F.nan ∉ [F.fin 1] ∧ F.nan ∉ [F.fin 2]
    ∧ ((updateFromBatch (updateFromBatch statsInit [F.fin 1]) [F.fin 2]).COUNT
          = (updateFromBatch statsInit ([F.fin 1] ++ [F.fin 2])).COUNT
       ∧ (updateFromBatch (updateFromBatch statsInit [F.fin 1]) [F.fin 2]).MIN_VALUE
          = (updateFromBatch statsInit ([F.fin 1] ++ [F.fin 2])).MIN_VALUE
       ∧ (updateFromBatch (updateFromBatch statsInit [F.fin 1]) [F.fin 2]).MAX_VALUE
          = (updateFromBatch statsInit ([F.fin 1] ++ [F.fin 2])).MAX_VALUE) :=
  ⟨by decide, by decide, by decide, by decide,
    claim2_batch_equivalence statsInit [F.fin 1] [F.fin 2]
      (by decide) (by decide) (by decide) (by decide)⟩

/-- Claim C4 counterexample: the claim says SUM never decreases across any
sequence of `update_from_batch` calls, but a batch holding a negative
price strictly decreases it: from `Stats()` the batch `[-1.0]` takes SUM
from `0.0` down to `-1.0`. -/
theorem claim4_counterexample :
    F.lt (updateFromBatch statsInit [F.fin (-1)]).SUM statsInit.SUM = true := by
  have hsum : (updateFromBatch statsInit [F.fin (-1)]).SUM = F.fin (-1) := by
    simp only [updateFromBatch, statsInit, npSum, List.foldl_cons, List.foldl_nil,
      List.length_cons, List.length_nil]
    norm_num [F.add]
  rw [hsum]
  show F.lt (F.fin (-1)) (F.fin 0) = true
  rw [F.lt_fin_fin]
  norm_num

/-- Claim C4 (amended): over any `update_from_batch` call, COUNT never
decreases, MIN_VALUE never increases and MAX_VALUE never decreases, for
every batch; SUM never decreases provided every value of the batch is a
non-negative finite float.  (There is still no operation in `Stats` that
removes or decrements accumulated values: `update_from_batch` is the only
mutator.) -/
theorem claim4_monotone (s : Stats) (l : List F) :
    (s.COUNT ≤ (updateFromBatch s l).COUNT
      ∧ fleq (updateFromBatch s l).MIN_VALUE s.MIN_VALUE
      ∧ fleq s.MAX_VALUE (updateFromBatch s l).MAX_VALUE)
    ∧ ((∀ x ∈ l, ∃ q, x = F.fin q ∧ 0 ≤ q) → fleq s.SUM (updateFromBatch s l).SUM) := by
  by_cases hl : l.length = 0
  · simp only [updateFromBatch, if_pos hl]
    exact ⟨⟨le_rfl, Or.inl rfl, Or.inl rfl⟩, fun _ => Or.inl rfl⟩
  · simp only [updateFromBatch, if_neg hl]
    refine ⟨⟨by simp, ?_, ?_⟩, ?_⟩
    · unfold pymin
      split
      · exact Or.inr (by assumption)
      · exact Or.inl rfl
    · unfold pymax
      split
      · exact Or.inr (by assumption)
      · exact Or.inl rfl
    · intro hpos
      obtain ⟨q, hq, hq0⟩ := npSum_fin_nonneg l hpos
      rw [hq]
      cases hs : s.SUM with
      | nan => exact Or.inl rfl
      | inf => exact Or.inl rfl
      | ninf => exact Or.inl rfl
      | fin p =>
        rcases eq_or_lt_of_le hq0 with h0 | h0
        · exact Or.inl (by simp [F.add, ← h0])
        · refine Or.inr ?_
          have : F.add (F.fin p) (F.fin q) = F.fin (p + q) := rfl
          rw [this, F.lt_fin_fin]
          simpa using by linarith

/-- Witness for C4 at `Stats()` and the batch `[1.0]`. -/
theorem claim4_witness :
    (∀ x ∈ [F.fin 1], ∃ q, x = F.fin q ∧ 0 ≤ q)
    ∧ fleq statsInit.SUM (updateFromBatch statsInit [F.fin 1]).SUM := by
  have harg : ∀ x ∈ [F.fin 1], ∃ q, x = F.fin q ∧ 0 ≤ q := by
    intro x hx
    rw [List.mem_singleton.mp hx]
    exact ⟨1, rfl, by norm_num⟩
  exact ⟨harg, (claim4_monotone statsInit [F.fin 1]).2 harg⟩

/-- Concrete windowing of the two-row spec scenario at `chunkSize = 10`:
one window holding both rows. -/
theorem sliceWindows_scenario : sliceWindows [rowA, rowB] 10 0 = [[rowA, rowB]] := by
  rw [sliceWindows_step [rowA, rowB] 10 0 (by norm_num) (by norm_num)]
  rw [sliceWindows_stop [rowA, rowB] 10 10 (by norm_num)]
  norm_num

/-- Concrete windowing of the one-bad-row file at `chunkSize = 10`. -/
theorem sliceWindows_badRow : sliceWindows [badRow] 10 0 = [[badRow]] := by
  rw [sliceWindows_step [badRow] 10 0 (by norm_num) (by norm_num)]
  rw [sliceWindows_stop [badRow] 10 10 (by norm_num)]
  norm_num

/-- Claim C1 (code bug): on the spec scenario `[("01/01/2012", 10.0, "u1"),
("01/02/2012", null, "u2")]` with `chunkSize = 10`, two records ARE
persisted with the null price filled to 0.0 — but the statistics do NOT
see the fill: `_prepare_records` fills the nulls only on its local copy of
the chunk, `_process_batch` reads the price column from the caller's
original chunk, the null is exported to numpy as NaN, and so SUM becomes
NaN (not 10.0), while MIN_VALUE/MAX_VALUE keep their `±inf` sentinels
(Python's `min/max` ignore an incoming NaN) instead of becoming 0.0 and
10.0, and the derived mean is NaN rather than 5.0. -/
theorem claim1_null_fill_missing_for_stats :
    ((processCsvFile pipeInit [rowA, rowB] "2012-1.csv" 10 false).1.committed.map Rec.price
        = [F.fin 10, F.fin 0])
    ∧ (processCsvFile pipeInit [rowA, rowB] "2012-1.csv" 10 false).1.stats.COUNT = 2
    ∧ (processCsvFile pipeInit [rowA, rowB] "2012-1.csv" 10 false).1.stats.SUM = F.nan
    ∧ (processCsvFile pipeInit [rowA, rowB] "2012-1.csv" 10 false).1.stats.MIN_VALUE = F.inf
    ∧ (processCsvFile pipeInit [rowA, rowB] "2012-1.csv" 10 false).1.stats.MAX_VALUE = F.ninf
    ∧ (getCurrentStats (processCsvFile pipeInit [rowA, rowB] "2012-1.csv" 10 false).1.stats).mean
        = F.nan
    ∧ (processCsvFile pipeInit [rowA, rowB] "2012-1.csv" 10 false).1.stats.SUM ≠ F.fin 10 := by
  unfold processCsvFile
  rw [sliceWindows_scenario]
  exact ⟨by decide, by decide, by decide, by decide, by decide, by decide, by decide⟩

/-- Claim C3 counterexample: on the same two-row file (whose second price is
null), the row-by-row policy ends with `MIN_VALUE = 10.0` while the batch
policy ends with `MIN_VALUE = +inf` — numpy's whole-window min is
poisoned by the NaN of the null price, whereas the per-row updates only
lose the NaN row — so the two policies do NOT agree on every input file. -/
theorem claim3_counterexample :
    (processCsvFile pipeInit [rowA, rowB] "2012-1.csv" 10 true).1.stats.MIN_VALUE = F.fin 10
    ∧ (processCsvFile pipeInit [rowA, rowB] "2012-1.csv" 10 false).1.stats.MIN_VALUE = F.inf
    ∧ (processCsvFile pipeInit [rowA, rowB] "2012-1.csv" 10 true).1.stats
        ≠ (processCsvFile pipeInit [rowA, rowB] "2012-1.csv" 10 false).1.stats := by
  unfold processCsvFile
  rw [sliceWindows_scenario]
  exact ⟨by decide, by decide, by decide⟩

/-- Claim C3 (amended): for every input file in which no price is null
(all prices finite floats), row-by-row processing persists exactly the
same records (same committed and pending store contents), returns the same
row count, and ends with the same accumulator COUNT, MIN_VALUE and
MAX_VALUE as batch processing of the same rows.  The SUMs are not
compared: the two policies group the float64 additions differently
(per-row rounded accumulation vs one whole-window numpy summation), so in
the real program their sums agree only up to rounding — as the spec itself
notes for per-element accumulation — while count, min, max, the records
and the row total involve no rounded arithmetic and agree exactly. -/
theorem claim3_policy_equivalence (st : PipeState) (rows : List Row) (fn : String) (csize : Nat)
    (hfin : ∀ r ∈ rows, ∃ q, r.price = some (F.fin q)) :
    (processCsvFile st rows fn csize true).1.committed
        = (processCsvFile st rows fn csize false).1.committed
    ∧ (processCsvFile st rows fn csize true).1.pending
        = (processCsvFile st rows fn csize false).1.pending
    ∧ (processCsvFile st rows fn csize true).1.stats.COUNT
        = (processCsvFile st rows fn csize false).1.stats.COUNT
    ∧ (processCsvFile st rows fn csize true).1.stats.MIN_VALUE
        = (processCsvFile st rows fn csize false).1.stats.MIN_VALUE
    ∧ (processCsvFile st rows fn csize true).1.stats.MAX_VALUE
        = (processCsvFile st rows fn csize false).1.stats.MAX_VALUE
    ∧ (processCsvFile st rows fn csize true).2
        = (processCsvFile st rows fn csize false).2 := by
  have hmem : ∀ w ∈ sliceWindows rows csize 0, ∀ r ∈ w, ∃ q, r.price = some (F.fin q) := by
    intro w hw r hr
    rcases Nat.eq_zero_or_pos csize with hc | hc
    · subst hc
      rw [sliceWindows] at hw
      simp at hw
    · exact hfin r (mem_of_mem_sliceWindows rows csize (by omega) w hw r hr)
  have hag0 : PipeState.agreeNoSum st st := ⟨rfl, rfl, rfl, rfl, rfl⟩
  obtain ⟨hag, hres⟩ :=
    runWindows_policy_agree fn (sliceWindows rows csize 0) st st 0 hag0 hmem
  unfold processCsvFile
  rcases h1 : runWindows st 0 (sliceWindows rows csize 0) fn true with ⟨p1, r1⟩
  rcases h0 : runWindows st 0 (sliceWindows rows csize 0) fn false with ⟨p0, r0⟩
  rw [h1, h0] at hag hres
  have hres2 : r1 = r0 := hres
  have hag2 : PipeState.agreeNoSum p1 p0 := hag
  unfold PipeState.agreeNoSum Stats.agreeNoSum at hag2
  obtain ⟨hcomm, hpend, hcount, hmin, hmax⟩ := hag2
  subst hres2
  cases r1 with
  | ok t =>
    refine ⟨?_, rfl, hcount, hmin, hmax, rfl⟩
    show p1.committed ++ p1.pending = p0.committed ++ p0.pending
    rw [hcomm, hpend]
  | error e =>
    exact ⟨hcomm, rfl, hcount, hmin, hmax, rfl⟩

/-- Witness for C3 on a one-row all-finite file. -/
theorem claim3_witness :
    (∀ r ∈ [rowA], ∃ q, r.price = some (F.fin q))
    ∧ ((processCsvFile pipeInit [rowA] "validation.csv" 10 true).1.committed
          = (processCsvFile pipeInit [rowA] "validation.csv" 10 false).1.committed
       ∧ (processCsvFile pipeInit [rowA] "validation.csv" 10 true).1.pending
          = (processCsvFile pipeInit [rowA] "validation.csv" 10 false).1.pending
       ∧ (processCsvFile pipeInit [rowA] "validation.csv" 10 true).1.stats.COUNT
          = (processCsvFile pipeInit [rowA] "validation.csv" 10 false).1.stats.COUNT
       ∧ (processCsvFile pipeInit [rowA] "validation.csv" 10 true).1.stats.MIN_VALUE
          = (processCsvFile pipeInit [rowA] "validation.csv" 10 false).1.stats.MIN_VALUE
       ∧ (processCsvFile pipeInit [rowA] "validation.csv" 10 true).1.stats.MAX_VALUE
          = (processCsvFile pipeInit [rowA] "validation.csv" 10 false).1.stats.MAX_VALUE
       ∧ (processCsvFile pipeInit [rowA] "validation.csv" 10 true).2
          = (processCsvFile pipeInit [rowA] "validation.csv" 10 false).2) := by
  have h : ∀ r ∈ [rowA], ∃ q, r.price = some (F.fin q) := by
    intro r hr
    rw [List.mem_singleton.mp hr]
    exact ⟨10, rfl⟩
  exact ⟨h, claim3_policy_equivalence pipeInit [rowA] "validation.csv" 10 h⟩

/-- Claim C5 (code bug): the claim (and the driver's own PHASE-1/PHASE-2 structure) says
the dated files are all processed first and the validation file exactly
once afterwards — but the validation block sits INSIDE the
`for i in range(1, 6)` loop, so with all five dated files and
`validation.csv` present the driver issues ten `process_csv_file` calls,
processing `validation.csv` with the row-by-row policy after every single
dated file (five times, interleaved), not once at the end. -/
theorem claim5_validation_interleaved :
    mainCalls (fun _ => true) true
      = [("2012-1.csv", false), ("validation.csv", true),
         ("2012-2.csv", false), ("validation.csv", true),
         ("2012-3.csv", false), ("validation.csv", true),
         ("2012-4.csv", false), ("validation.csv", true),
         ("2012-5.csv", false), ("validation.csv", true)]
    ∧ ((mainCalls (fun _ => true) true).filter
        (fun c => c.1 == "validation.csv")).length = 5 := by
  exact ⟨by decide, by decide⟩

/-- Claim C6: every 2500-row file (with parseable dates) processed at
`chunkSize = 1000` is sliced into exactly the three windows of 1000, 1000
and 500 rows — the offset advancing by the fixed stride 1000 each time and
the loop stopping at the first empty window — and `process_csv_file`
returns 2500. -/
theorem claim6_windowing (rows : List Row)
    (hlen : rows.length = 2500)
    (hdates : ∀ r ∈ rows, (strptimeMDY r.date).isSome) :
    (sliceWindows rows 1000 0).map List.length = [1000, 1000, 500]
    ∧ ∀ (st : PipeState) (fn : String),
        (processCsvFile st rows fn 1000 false).2 = Except.ok 2500 := by
  have h0 : sliceWindows rows 1000 0 = ((rows.drop 0).take 1000) :: sliceWindows rows 1000 1000 :=
    sliceWindows_step rows 1000 0 (by norm_num) (by omega)
  have h1 : sliceWindows rows 1000 1000 = ((rows.drop 1000).take 1000) :: sliceWindows rows 1000 2000 :=
    sliceWindows_step rows 1000 1000 (by norm_num) (by omega)
  have h2 : sliceWindows rows 1000 2000 = ((rows.drop 2000).take 1000) :: sliceWindows rows 1000 3000 :=
    sliceWindows_step rows 1000 2000 (by norm_num) (by omega)
  have h3 : sliceWindows rows 1000 3000 = [] :=
    sliceWindows_stop rows 1000 3000 (by omega)
  have hwin : (sliceWindows rows 1000 0).map List.length = [1000, 1000, 500] := by
    rw [h0, h1, h2, h3]
    simp only [List.map_cons, List.map_nil, List.length_take, List.length_drop, hlen]
    decide
  refine ⟨hwin, ?_⟩
  intro st fn
  have hmem : ∀ w ∈ sliceWindows rows 1000 0, ∀ r ∈ w, (strptimeMDY r.date).isSome := by
    intro w hw r hr
    exact hdates r (mem_of_mem_sliceWindows rows 1000 (by norm_num) w hw r hr)
  have htot := runWindows_ok_total fn false (sliceWindows rows 1000 0) st 0 hmem
  have hsum : ((sliceWindows rows 1000 0).map List.length).sum = 2500 := by
    rw [hwin]
    rfl
  rw [hsum] at htot
  unfold processCsvFile
  rcases hr : runWindows st 0 (sliceWindows rows 1000 0) fn false with ⟨st1, res⟩
  rw [hr] at htot
  simp only at htot
  cases res with
  | ok t =>
    cases htot
    rfl
  | error e => cases htot

/-- Witness for C6 on a concrete 2500-row file. -/
theorem claim6_witness :
    (List.replicate 2500 rowA).length = 2500
    ∧ ((sliceWindows (List.replicate 2500 rowA) 1000 0).map List.length = [1000, 1000, 500]
       ∧ ∀ (st : PipeState) (fn : String),
           (processCsvFile st (List.replicate 2500 rowA) fn 1000 false).2 = Except.ok 2500) := by
  have hdates : ∀ r ∈ List.replicate 2500 rowA, (strptimeMDY r.date).isSome := by
    intro r hr
    rw [List.eq_of_mem_replicate hr]
    decide
  exact ⟨List.length_replicate 2500 rowA,
    claim6_windowing (List.replicate 2500 rowA) (List.length_replicate 2500 rowA) hdates⟩

/-- Claim C7: whenever processing a file fails, the transaction is rolled back
before the failure propagates: the store's committed rows are exactly what
they were before the file started (the file contributes zero committed
rows, neither earlier windows nor the failing one) and nothing is left
pending. -/
theorem claim7_rollback_on_failure (st : PipeState) (rows : List Row) (fn : String)
    (csize : Nat) (upr : Bool) (e : String)
    (herr : (processCsvFile st rows fn csize upr).2 = .error e) :
    (processCsvFile st rows fn csize upr).1.committed = st.committed
    ∧ (processCsvFile st rows fn csize upr).1.pending = [] := by
  have hc := runWindows_committed (sliceWindows rows csize 0) st 0 fn upr
  unfold processCsvFile at herr ⊢
  split at herr
  · simp at herr
  · rename_i st1 e2 heq
    rw [heq] at hc
    exact ⟨hc, rfl⟩

/-- Witness for C7: a file whose (only) window fails to parse leaves the
store exactly as it was. -/
theorem claim7_witness :
    (processCsvFile pipeInit [badRow] "2012-1.csv" 10 false).2
        = Except.error "strptime: ValueError"
    ∧ (processCsvFile pipeInit [badRow] "2012-1.csv" 10 false).1.committed
        = pipeInit.committed
    ∧ (processCsvFile pipeInit [badRow] "2012-1.csv" 10 false).1.pending = [] := by
  have herr : (processCsvFile pipeInit [badRow] "2012-1.csv" 10 false).2
      = Except.error "strptime: ValueError" := by
    unfold processCsvFile
    rw [sliceWindows_badRow]
    rfl
  obtain ⟨h1, h2⟩ :=
    claim7_rollback_on_failure pipeInit [badRow] "2012-1.csv" 10 false "strptime: ValueError" herr
  exact ⟨herr, h1, h2⟩
